import Mathlib

/-!
Verification of the pgrok Tunnel Session Core (TypeScript sources), as a
shallow embedding in Lean 4.  JavaScript 32-bit integer arithmetic is
modelled by `Nat` with explicit `% 2^32`; JS strings by `String`
(a wrapper around `List Char`); `Headers` objects by association lists with
case-insensitive operations; fallible operations by `Except`.
-/

namespace Pgrok

/-! ## JS string helpers (semantics of `String.prototype` methods used by the code) -/

/-- JS `s.trim()`: drop whitespace from both ends. -/
def jsTrim (s : String) : String :=
  ⟨((s.data.dropWhile Char.isWhitespace).reverse.dropWhile Char.isWhitespace).reverse⟩

/-- JS `s.split(sep)` for a one-character separator (the code splits only on
"," and "\n"). -/
def splitChar (sep : Char) : List Char → List (List Char)
  | [] => [[]]
  | c :: cs =>
    if c = sep then [] :: splitChar sep cs
    else match splitChar sep cs with
      | [] => [[c]]
      | seg :: rest => (c :: seg) :: rest

def jsSplit1 (sep : Char) (s : String) : List String :=
  (splitChar sep s.data).map fun l => ⟨l⟩

/-- JS `s.startsWith(p)`. -/
def strStartsWith (s p : String) : Bool :=
  p.data.isPrefixOf s.data

/-- Helper for JS `s.replace(pat, "")` with a plain-string pattern: remove the
first occurrence of `pat` (scan left to right), leave the rest unchanged. -/
def replaceFirstAux (pat : List Char) : List Char → List Char
  | [] => []
  | c :: cs =>
    if pat.isPrefixOf (c :: cs) then (c :: cs).drop pat.length
    else c :: replaceFirstAux pat cs

/-- JS `s.replace(pat, "")` for a string pattern (first occurrence only). -/
def jsReplaceFirst (s pat : String) : String :=
  ⟨replaceFirstAux pat.data s.data⟩

/-! ## Tunnel state machine (src/client/tui/src/tunnel.ts) -/

inductive TunnelStatus
  | connecting
  | provisioning_tls
  | online
  | error
deriving DecidableEq

inductive CertStatus
  | pending
  | ready
  | warning
deriving DecidableEq

structure TunnelState where
  status : TunnelStatus
  url : Option String
  certStatus : CertStatus
  error : Option String
deriving DecidableEq

/-- `initialTunnelState()` from tunnel.ts. -/
def initialTunnelState : TunnelState :=
  { status := .connecting, url := none, certStatus := .pending, error := none }

/-- `parseTunnelMessage(line, state)` from tunnel.ts: the pure transition
function applied to one line of ssh output. -/
def parseTunnelMessage (line : String) (state : TunnelState) : TunnelState :=
  if strStartsWith line "Provisioning TLS certificate" then
    { state with status := .provisioning_tls, certStatus := .pending }
  else if line = "TLS certificate ready." then
    { state with certStatus := .ready }
  else if strStartsWith line "Warning: TLS certificate not yet ready" then
    { state with certStatus := .warning }
  else if strStartsWith line "pgrok tunnel active:" then
    { state with status := .online,
                 url := some (jsTrim (jsReplaceFirst line "pgrok tunnel active: ")) }
  else if strStartsWith line "Error:" then
    { state with status := .error, error := some line }
  else state

/-! ## POSIX cksum (src/client/tui/src/tunnel.ts, `CRC_TABLE` and `posixCksum`)

JS `Uint32Array`/int32 arithmetic is modelled by `Nat` masked with `% 2^32`;
`x >>> 0` on an int32 value is the same mask, `~x >>> 0` on a 32-bit value is
`x ^^^ 0xffffffff`. -/

def CRC_POLY : Nat := 0x04c11db7

/-- One iteration of the table-generation loop in `CRC_TABLE`:
`crc = crc & 0x80000000 ? (crc << 1) ^ 0x04c11db7 : crc << 1` (int32 ops). -/
def tableStep (crc : Nat) : Nat :=
  if crc.testBit 31 then ((crc <<< 1) % 2 ^ 32) ^^^ CRC_POLY
  else (crc <<< 1) % 2 ^ 32

/-- `CRC_TABLE[i]`: eight iterations of `tableStep` starting from `i << 24`. -/
def crcTableEntry (i : Nat) : Nat :=
  tableStep (tableStep (tableStep (tableStep
    (tableStep (tableStep (tableStep (tableStep (i <<< 24))))))))

/-- One byte step of `posixCksum`:
`crc = ((crc << 8) ^ CRC_TABLE[((crc >>> 24) ^ b) & 0xff]) >>> 0`. -/
def updateCrc (crc b : Nat) : Nat :=
  ((crc <<< 8) % 2 ^ 32) ^^^ crcTableEntry (((crc >>> 24) ^^^ b) % 256)

/-- The length loop of `posixCksum`: feed the byte count through the table
step, base-256 digits least-significant first, until the count is exhausted. -/
def feedLength (crc len : Nat) : Nat :=
  if h : len = 0 then crc
  else feedLength (updateCrc crc (len % 256)) (len / 256)
termination_by len
decreasing_by exact Nat.div_lt_self (Nat.pos_of_ne_zero h) (by decide)

/-- UTF-8 bytes of a string, as `TextEncoder().encode` produces them. -/
def strBytes (s : String) : List Nat :=
  (s.data.map String.utf8EncodeChar).flatten.map UInt8.toNat

/-- `posixCksum(input)` from tunnel.ts. -/
def posixCksum (input : String) : Nat :=
  let bytes := strBytes input
  feedLength (bytes.foldl updateCrc 0) bytes.length ^^^ 0xffffffff

/-- `computeRemotePort(subdomain)` from tunnel.ts. -/
def computeRemotePort (subdomain : String) : Nat :=
  10000 + posixCksum subdomain % 50000

/-! ### Reference (bit-serial) POSIX cksum, from the spec's description:
a big-endian CRC-32 with polynomial 0x04C11DB7 and seed 0, fed one message
bit at a time most-significant first, then the byte length as base-256
digits least-significant byte first, finally complemented and masked. -/

/-- One bit of the reference CRC register update: shift left, feeding `bit`
against the outgoing top bit, and apply the polynomial on carry. -/
def crcBit (crc : Nat) (bit : Bool) : Nat :=
  ((crc <<< 1) % 2 ^ 32) ^^^ (if xor (crc.testBit 31) bit then CRC_POLY else 0)

def crcBits (crc : Nat) (bits : List Bool) : Nat :=
  bits.foldl crcBit crc

/-- The bits of one byte, most significant first. -/
def byteBits (b : Nat) : List Bool :=
  [b.testBit 7, b.testBit 6, b.testBit 5, b.testBit 4,
   b.testBit 3, b.testBit 2, b.testBit 1, b.testBit 0]

/-- Feed one byte into the reference CRC register, bit by bit. -/
def feedByteBits (crc b : Nat) : Nat :=
  crcBits crc (byteBits b)

/-- The byte length encoded as base-256 digits, least significant first
(a zero length contributes no digits). -/
def lengthBytesLE (len : Nat) : List Nat :=
  if h : len = 0 then []
  else len % 256 :: lengthBytesLE (len / 256)
termination_by len
decreasing_by exact Nat.div_lt_self (Nat.pos_of_ne_zero h) (by decide)

/-- Reference POSIX cksum of a byte sequence, bit-serial. -/
def cksumBitwise (bytes : List Nat) : Nat :=
  (lengthBytesLE bytes.length).foldl feedByteBits (bytes.foldl feedByteBits 0)
    ^^^ 0xffffffff

/-- Reference POSIX cksum of a string's UTF-8 bytes. -/
def cksumReference (s : String) : Nat :=
  cksumBitwise (strBytes s)

/-! ## Statistics tracker (stats.ts, `StatsTracker`)

`Date.now()` timestamps are modelled by `Int` (milliseconds), durations from
`performance.now()` by `ℚ`.  The mutable fields of the class become a state
record threaded explicitly; every method takes the current clock value. -/

structure TimingEntry where
  ts : Int
  ms : ℚ
deriving DecidableEq

instance : Inhabited TimingEntry := ⟨⟨0, 0⟩⟩

structure StatsState where
  durations : List TimingEntry
  inFlight : Int
  total : Nat
deriving DecidableEq

def initialStatsState : StatsState := ⟨[], 0, 0⟩

structure ConnectionStats where
  totalRequests : Nat
  openConnections : Int
  rate1m : ℚ
  rate5m : ℚ
  p50Ms : ℚ
  p90Ms : ℚ
deriving DecidableEq

/-- `prune()`: drop entries whose timestamp is not newer than five minutes ago. -/
def pruneEntries (now : Int) (ds : List TimingEntry) : List TimingEntry :=
  ds.filter fun d => now - 5 * 60 * 1000 < d.ts

/-- `recordRequest(durationMs)`: bump the lifetime total, append the entry,
then prune. -/
def recordRequest (now : Int) (durationMs : ℚ) (st : StatsState) : StatsState :=
  { st with
    total := st.total + 1
    durations := pruneEntries now (st.durations ++ [⟨now, durationMs⟩]) }

/-- The increment performed by `requestStart()`. -/
def requestStart (st : StatsState) : StatsState :=
  { st with inFlight := st.inFlight + 1 }

/-- The decrement performed by the completion callback `requestStart()`
returns: `this.inFlight = Math.max(0, this.inFlight - 1)`. -/
def requestDone (st : StatsState) : StatsState :=
  { st with inFlight := max 0 (st.inFlight - 1) }

/-- JS `Math.round`: round half toward positive infinity. -/
def jsRound (q : ℚ) : Int := ⌊q + 1 / 2⌋

/-- `Math.round(x * 100) / 100`: round to two decimal places. -/
def round2 (q : ℚ) : ℚ := (jsRound (q * 100) : ℚ) / 100

/-- `[...durations].sort((a, b) => a.ms - b.ms)`: sort entries by duration. -/
def sortByMs (ds : List TimingEntry) : List TimingEntry :=
  ds.mergeSort fun a b => decide (a.ms ≤ b.ms)

/-- `get()`: prune, then compute the snapshot from the retained window.
Returns the snapshot together with the pruned state. -/
def statsGet (now : Int) (st : StatsState) : ConnectionStats × StatsState :=
  let ds := pruneEntries now st.durations
  let last1m := ds.filter fun d => now - 60000 < d.ts
  let sorted := sortByMs ds
  let p50 : ℚ := if sorted.length > 0 then (sorted.getD (sorted.length * 5 / 10) default).ms else 0
  let p90 : ℚ := if sorted.length > 0 then (sorted.getD (sorted.length * 9 / 10) default).ms else 0
  ({ totalRequests := st.total
     openConnections := st.inFlight
     rate1m := if last1m.length > 0 then (last1m.length : ℚ) / 60 else 0
     rate5m := if ds.length > 0 then (ds.length : ℚ) / 300 else 0
     p50Ms := round2 p50
     p90Ms := round2 p90 },
   { st with durations := ds })

/-- The snapshot as the spec states it: prune, then
`rate1m = count(entries newer than now-60s) / 60`,
`rate5m = count(all retained) / 300`, percentiles by sorting the retained
durations ascending and indexing at `floor(n*0.5)` and `floor(n*0.9)`
(0 when empty), rounded to two decimals. -/
def snapshotSpec (now : Int) (st : StatsState) : ConnectionStats :=
  let retained := st.durations.filter fun d => now - 5 * 60 * 1000 < d.ts
  let sortedMs := (retained.map TimingEntry.ms).mergeSort fun a b => decide (a ≤ b)
  let n := sortedMs.length
  { totalRequests := st.total
    openConnections := st.inFlight
    rate1m := ((retained.filter fun d => now - 60000 < d.ts).length : ℚ) / 60
    rate5m := (n : ℚ) / 300
    p50Ms := round2 (if n = 0 then 0 else sortedMs.getD (n * 5 / 10) 0)
    p90Ms := round2 (if n = 0 then 0 else sortedMs.getD (n * 9 / 10) 0) }

/-- One externally visible event of the tracker: a completed request being
recorded, `requestStart()` being called, or a completion callback firing
(possibly duplicated or late). -/
inductive StatsOp
  | record (now : Int) (durationMs : ℚ)
  | start
  | complete

def applyStatsOp (st : StatsState) : StatsOp → StatsState
  | .record now ms => recordRequest now ms st
  | .start => requestStart st
  | .complete => requestDone st

def applyStatsOps (st : StatsState) (ops : List StatsOp) : StatsState :=
  ops.foldl applyStatsOp st

/-! ## Local reverse proxy headers (proxy.ts)

A JS `Headers` object is modelled by an association list of name/value
pairs; header names compare case-insensitively, so every operation
lowercases the names it touches. -/

abbrev HeadersM := List (String × String)

/-- ASCII lowercasing of a header name (JS `Headers` normalization). -/
def lowerStr (s : String) : String := ⟨s.data.map Char.toLower⟩

/-- `headers.get(name)` (case-insensitive; first match). -/
def hGet (h : HeadersM) (name : String) : Option String :=
  (h.find? fun p => lowerStr p.1 == lowerStr name).map Prod.snd

/-- `headers.delete(name)` (case-insensitive). -/
def hDelete (h : HeadersM) (name : String) : HeadersM :=
  h.filter fun p => !(lowerStr p.1 == lowerStr name)

/-- `headers.set(name, value)`. -/
def hSet (h : HeadersM) (name value : String) : HeadersM :=
  hDelete h name ++ [(lowerStr name, value)]

/-- The hop-by-hop header names of `HOP_BY_HOP_HEADERS` in proxy.ts. -/
def HOP_BY_HOP : List String :=
  ["connection", "keep-alive", "proxy-authenticate", "proxy-authorization",
   "proxy-connection", "te", "trailer", "transfer-encoding", "upgrade"]

/-- The names listed in the inbound `Connection` header value
(`connectionHeader.split(",")`), or none when the header is absent or empty
(falsy in JS). -/
def connTokens (h : HeadersM) : List String :=
  match hGet h "connection" with
  | none => []
  | some cv => if cv = "" then [] else jsSplit1 ',' cv

/-- `stripHopByHop(headers)` from proxy.ts: delete every name listed in the
`Connection` value (trimmed), then every fixed hop-by-hop name. -/
def stripHopByHop (h : HeadersM) : HeadersM :=
  HOP_BY_HOP.foldl hDelete
    ((connTokens h).foldl (fun acc name => hDelete acc (jsTrim name)) h)

/-- The forwarded-header pipeline of the regular HTTP branch of
`startProxy.fetch`: clone, strip hop-by-hop, rewrite `Host`, extend the
`X-Forwarded-*` set, drop `Accept-Encoding`. -/
def buildForwardHeaders (reqHeaders : HeadersM) (targetPort : Nat) : HeadersM :=
  let originalHost := match hGet reqHeaders "host" with
    | some v => v
    | none => ""
  let fwd := stripHopByHop reqHeaders
  let fwd := hSet fwd "host" ("localhost:" ++ toString targetPort)
  let clientIp := match hGet reqHeaders "x-real-ip" with
    | some v => if v = "" then "127.0.0.1" else v
    | none => "127.0.0.1"
  let fwd := hSet fwd "x-forwarded-for"
    (match hGet reqHeaders "x-forwarded-for" with
     | some prior => if prior = "" then clientIp else prior ++ ", " ++ clientIp
     | none => clientIp)
  let fwd := hSet fwd "x-forwarded-proto"
    (match hGet reqHeaders "x-forwarded-proto" with
     | some prior => if prior = "" then "https" else prior
     | none => "https")
  let fwd := hSet fwd "x-forwarded-host" originalHost
  let fwd := hSet fwd "x-forwarded-port" "443"
  hDelete fwd "accept-encoding"

/-- The response-header pipeline of `startProxy.fetch`: strip hop-by-hop,
then drop `Content-Encoding` and `Content-Length`. -/
def buildResponseHeaders (respHeaders : HeadersM) : HeadersM :=
  hDelete (hDelete (stripHopByHop respHeaders) "content-encoding") "content-length"

/-! ## HTTP forwarding outcome (proxy.ts, regular HTTP branch) -/

structure HttpRequestR where
  timestamp : Int
  method : String
  path : String
  statusCode : Nat
  statusText : String
  durationMs : ℚ
deriving DecidableEq

structure ReqModel where
  method : String
  path : String
  headers : HeadersM
deriving DecidableEq

/-- What the awaited `fetch(targetUrl, ...)` did: delivered a response, or
threw (nothing listening on the target port, connection reset, ...). -/
inductive FetchOutcome
  | ok (status : Nat) (statusText : String) (headers : HeadersM) (body : String)
  | fail
deriving DecidableEq

structure RespModel where
  status : Nat
  statusText : String
  headers : HeadersM
  body : String
deriving DecidableEq

/-- The regular (non-WebSocket) HTTP branch of `startProxy.fetch`: the
try/catch around the forwarded fetch.  `start`/`endT` are the two
`performance.now()` readings, `ts` the `Date.now()` of the record.  Returns
the response sent back to the caller and the list of `HttpRequest` records
emitted through `onRequest`. -/
def handleFetch (req : ReqModel) (outcome : FetchOutcome)
    (start endT : ℚ) (ts : Int) : RespModel × List HttpRequestR :=
  match outcome with
  | .ok status statusText respHeaders body =>
    (⟨status, statusText, buildResponseHeaders respHeaders, body⟩,
     [⟨ts, req.method, req.path, status, statusText, endT - start⟩])
  | .fail =>
    (⟨502, "", [("content-type", "text/plain")],
      "502 Bad Gateway — local service not running\n"⟩,
     [⟨ts, req.method, req.path, 502, "Bad Gateway", endT - start⟩])

/-! ## WebSocket relay (proxy.ts, `websocket.open`/`websocket.message`)

One proxied WebSocket connection: downstream messages and the upstream
"open" event arrive serialized on the single event loop.  `α` is the message
payload type (string or binary). -/

structure UpstreamWsState (α : Type) where
  ready : Bool
  queue : List α
  sentUp : List α
deriving DecidableEq

inductive WsEvent (α : Type)
  | down (m : α)
  | upOpen
deriving DecidableEq

/-- One event of the relay: `websocket.message` queues when the upstream is
not yet ready and sends directly when it is; the upstream `open` listener
sets the ready flag and flushes the queue in arrival order. -/
def wsStep {α : Type} (st : UpstreamWsState α) : WsEvent α → UpstreamWsState α
  | .down m =>
    if st.ready then { st with sentUp := st.sentUp ++ [m] }
    else { st with queue := st.queue ++ [m] }
  | .upOpen =>
    { st with ready := true, sentUp := st.sentUp ++ st.queue, queue := [] }

def wsInit {α : Type} : UpstreamWsState α := ⟨false, [], []⟩

def wsRun {α : Type} (events : List (WsEvent α)) : UpstreamWsState α :=
  events.foldl wsStep wsInit

/-! ## Config loader (config.ts, `loadConfig`)

The file content, the home directory and the `existsSync` predicate are
passed in; the thrown `Error` becomes `Except.error`. -/

structure PgrokConfig where
  host : String
  domain : String
  user : String
  sshKey : Option String
deriving DecidableEq

/-- The key/value parse loop of `loadConfig`: split on newlines, trim, skip
blank and `#` lines and lines without `=`, split at the first `=`,
trim both sides.  Later assignments override earlier ones. -/
def parseVars (content : String) : List (String × String) :=
  (jsSplit1 '\n' content).foldl
    (fun acc line =>
      let t := jsTrim line
      match t.data with
      | [] => acc
      | c :: _ =>
        if c = '#' then acc
        else match t.data.findIdx? (· = '=') with
          | none => acc
          | some i => acc ++ [(jsTrim ⟨t.data.take i⟩, jsTrim ⟨t.data.drop (i + 1)⟩)])
    []

/-- `vars[key]` on the object built by the parse loop: the last assignment
wins. -/
def getVar (vars : List (String × String)) (k : String) : Option String :=
  (vars.reverse.find? fun p => p.1 == k).map Prod.snd

/-- JS `value.replace(/^~/, homedir())`: a single leading tilde is replaced
by the home directory. -/
def tildeExpand (p home : String) : String :=
  match p.data with
  | '~' :: rest => ⟨home.data ++ rest⟩
  | _ => p

/-- `loadConfig()` from config.ts, given the config file's content.
`vars.PGROK_HOST` is falsy when absent or empty; the ssh key is kept only
when its tilde-expanded path is non-empty and exists. -/
def loadConfig (content home : String) (fileExists : String → Bool) :
    Except String PgrokConfig :=
  let vars := parseVars content
  match getVar vars "PGROK_HOST" with
  | none => .error "PGROK_HOST not set in ~/.pgrok/config"
  | some host =>
    if host = "" then .error "PGROK_HOST not set in ~/.pgrok/config"
    else match getVar vars "PGROK_DOMAIN" with
    | none => .error "PGROK_DOMAIN not set in ~/.pgrok/config"
    | some domain =>
      if domain = "" then .error "PGROK_DOMAIN not set in ~/.pgrok/config"
      else
        let user := match getVar vars "PGROK_USER" with
          | some u => if u = "" then "pgrok" else u
          | none => "pgrok"
        let sshKey := match getVar vars "PGROK_SSH_KEY" with
          | none => none
          | some v =>
            let k := tildeExpand v home
            if k ≠ "" && fileExists k then some k else none
        .ok ⟨host, domain, user, sshKey⟩


/-! ## Proofs -/

/-! ### C1: posixCksum implements the reference POSIX cksum -/

lemma xor_mod_two_pow (x y n : Nat) : (x ^^^ y) % 2 ^ n = x % 2 ^ n ^^^ y % 2 ^ n := by
  apply Nat.eq_of_testBit_eq
  intro i
  simp only [Nat.testBit_mod_two_pow, Nat.testBit_xor]
  cases h : decide (i < n) <;> simp

lemma xor_shiftLeft (x y k : Nat) : (x ^^^ y) <<< k = x <<< k ^^^ y <<< k := by
  apply Nat.eq_of_testBit_eq
  intro i
  simp only [Nat.testBit_shiftLeft, Nat.testBit_xor]
  cases h : decide (i ≥ k) <;> simp

lemma xor_shuffle (a b c d : Nat) : (a ^^^ b) ^^^ (c ^^^ d) = (a ^^^ c) ^^^ (b ^^^ d) := by
  apply Nat.eq_of_testBit_eq
  intro i
  simp only [Nat.testBit_xor]
  cases a.testBit i <;> cases b.testBit i <;> cases c.testBit i <;> cases d.testBit i <;> rfl

lemma crcBit_linear (x y : Nat) (bx by' : Bool) :
    crcBit (x ^^^ y) (xor bx by') = crcBit x bx ^^^ crcBit y by' := by
  unfold crcBit
  rw [xor_shiftLeft, xor_mod_two_pow, Nat.testBit_xor, xor_shuffle]
  congr 1
  cases hx : x.testBit 31 <;> cases hy : y.testBit 31 <;> cases bx <;> cases by' <;>
    simp [Nat.xor_self, Nat.xor_zero, Nat.zero_xor]

lemma crcBits_linear : ∀ (bs cs : List Bool), bs.length = cs.length →
    ∀ x y : Nat, crcBits (x ^^^ y) (List.zipWith xor bs cs) = crcBits x bs ^^^ crcBits y cs := by
  intro bs
  induction bs with
  | nil => intro cs h x y; cases cs with
    | nil => simp [crcBits]
    | cons c cs => simp at h
  | cons b bs ih =>
    intro cs h x y
    cases cs with
    | nil => simp at h
    | cons c cs =>
      simp only [List.zipWith, crcBits, List.foldl]
      rw [show List.foldl crcBit (crcBit (x ^^^ y) (xor b c)) (List.zipWith xor bs cs)
            = crcBits (crcBit (x ^^^ y) (xor b c)) (List.zipWith xor bs cs) from rfl,
          crcBit_linear]
      exact ih cs (by simpa using h) _ _

lemma byteBits_xor (bx by' : Nat) :
    byteBits (bx ^^^ by') = List.zipWith xor (byteBits bx) (byteBits by') := by
  simp only [byteBits, Nat.testBit_xor, List.zipWith]

lemma feedByteBits_linear (x y bx by' : Nat) :
    feedByteBits (x ^^^ y) (bx ^^^ by') = feedByteBits x bx ^^^ feedByteBits y by' := by
  unfold feedByteBits
  rw [byteBits_xor]
  exact crcBits_linear _ _ (by simp [byteBits]) x y

lemma crcBit_low (v : Nat) (h : v < 2 ^ 31) : crcBit v false = v * 2 := by
  unfold crcBit
  rw [Nat.testBit_lt_two_pow h]
  simp only [Bool.xor_false, if_neg (by simp : ¬ (false = true))]
  rw [Nat.xor_zero, Nat.shiftLeft_eq, pow_one, Nat.mod_eq_of_lt (by omega)]

lemma feedByteBits_zero_low (lo : Nat) (h : lo < 2 ^ 24) :
    feedByteBits lo 0 = lo <<< 8 := by
  unfold feedByteBits crcBits
  simp only [byteBits, Nat.zero_testBit, List.foldl]
  rw [crcBit_low lo (by omega),
      crcBit_low (lo * 2) (by omega),
      crcBit_low (lo * 2 * 2) (by omega),
      crcBit_low (lo * 2 * 2 * 2) (by omega),
      crcBit_low (lo * 2 * 2 * 2 * 2) (by omega),
      crcBit_low (lo * 2 * 2 * 2 * 2 * 2) (by omega),
      crcBit_low (lo * 2 * 2 * 2 * 2 * 2 * 2) (by omega),
      crcBit_low (lo * 2 * 2 * 2 * 2 * 2 * 2 * 2) (by omega),
      Nat.shiftLeft_eq]
  ring

set_option maxRecDepth 4096 in
lemma feedByteBits_cancel : ∀ b < 256, feedByteBits (b <<< 24) b = 0 := by decide

lemma tableStep_eq_crcBit (c : Nat) : tableStep c = crcBit c false := by
  unfold tableStep crcBit
  cases h : c.testBit 31 <;> simp [h, Nat.xor_zero]

lemma crcTableEntry_eq (i : Nat) : crcTableEntry i = feedByteBits (i <<< 24) 0 := by
  unfold crcTableEntry feedByteBits crcBits
  simp only [byteBits, Nat.zero_testBit, List.foldl, tableStep_eq_crcBit]

lemma decomp_top_low (crc : Nat) :
    (crc >>> 24) <<< 24 ^^^ crc % 2 ^ 24 = crc := by
  apply Nat.eq_of_testBit_eq
  intro i
  simp only [Nat.testBit_xor, Nat.testBit_shiftLeft, Nat.testBit_shiftRight,
    Nat.testBit_mod_two_pow]
  by_cases h : i < 24
  · have hd : decide (24 ≤ i) = false := decide_eq_false (by omega)
    simp [h, hd]
  · have h24 : 24 ≤ i := by omega
    rw [show 24 + (i - 24) = i from by omega]
    simp [h24, h]

lemma updateCrc_eq_feedByteBits (crc b : Nat) (hc : crc < 2 ^ 32) (hb : b < 256) :
    updateCrc crc b = feedByteBits crc b := by
  have htop : crc >>> 24 < 256 := by
    rw [Nat.shiftRight_eq_div_pow]
    exact Nat.div_lt_of_lt_mul (by norm_num at hc ⊢; omega)
  have hlo : crc % 2 ^ 24 < 2 ^ 24 := Nat.mod_lt _ (by norm_num)
  -- right-hand side: split the register into its top byte and low 24 bits
  have hsplit : feedByteBits crc b
      = feedByteBits ((crc >>> 24) <<< 24) b ^^^ (crc % 2 ^ 24) <<< 8 := by
    conv_lhs => rw [← decomp_top_low crc]
    rw [show b = b ^^^ 0 from by rw [Nat.xor_zero], feedByteBits_linear,
      Nat.xor_zero, feedByteBits_zero_low _ hlo]
  -- the top-byte feed is exactly the table entry
  have htable : feedByteBits ((crc >>> 24) <<< 24) b = crcTableEntry (crc >>> 24 ^^^ b) := by
    have hcancel := feedByteBits_cancel b hb
    have : feedByteBits ((crc >>> 24 ^^^ b) <<< 24) 0
        = feedByteBits ((crc >>> 24) <<< 24) b ^^^ feedByteBits (b <<< 24) b := by
      rw [xor_shiftLeft, show (0 : Nat) = b ^^^ b from by rw [Nat.xor_self],
        feedByteBits_linear]
    rw [crcTableEntry_eq, this, hcancel, Nat.xor_zero]
  rw [hsplit, htable]
  -- left-hand side: reduce the masks
  unfold updateCrc
  have hxor : crc >>> 24 ^^^ b < 256 := by
    have := Nat.xor_lt_two_pow (n := 8) (by simpa using htop) (by simpa using hb)
    simpa using this
  rw [Nat.mod_eq_of_lt hxor,
    show (crc <<< 8) % 2 ^ 32 = (crc % 2 ^ 24) <<< 8 from by
      rw [Nat.shiftLeft_eq, Nat.shiftLeft_eq,
        show (2 : Nat) ^ 32 = 2 ^ 24 * 2 ^ 8 from by norm_num,
        Nat.mul_mod_mul_right],
    Nat.xor_comm]

lemma tableStep_lt (c : Nat) : tableStep c < 2 ^ 32 := by
  unfold tableStep
  by_cases h : c.testBit 31
  · rw [if_pos h]
    exact Nat.xor_lt_two_pow (Nat.mod_lt _ (by norm_num)) (by norm_num [CRC_POLY])
  · rw [if_neg h]
    exact Nat.mod_lt _ (by norm_num)

lemma crcTableEntry_lt (i : Nat) : crcTableEntry i < 2 ^ 32 := tableStep_lt _

lemma updateCrc_lt (crc b : Nat) : updateCrc crc b < 2 ^ 32 :=
  Nat.xor_lt_two_pow (Nat.mod_lt _ (by norm_num)) (crcTableEntry_lt _)

lemma feedLength_zero (crc : Nat) : feedLength crc 0 = crc := by
  rw [feedLength]
  rfl

lemma feedLength_pos (crc len : Nat) (h : len ≠ 0) :
    feedLength crc len = feedLength (updateCrc crc (len % 256)) (len / 256) := by
  rw [feedLength]
  exact dif_neg h

lemma feedLength_small (crc len : Nat) (h1 : len ≠ 0) (h2 : len < 256) :
    feedLength crc len = updateCrc crc len := by
  rw [feedLength_pos _ _ h1, Nat.mod_eq_of_lt h2, Nat.div_eq_of_lt h2, feedLength_zero]

lemma lengthBytesLE_zero : lengthBytesLE 0 = [] := by
  rw [lengthBytesLE]
  rfl

lemma lengthBytesLE_pos (len : Nat) (h : len ≠ 0) :
    lengthBytesLE len = len % 256 :: lengthBytesLE (len / 256) := by
  rw [lengthBytesLE]
  exact dif_neg h

lemma foldl_updateCrc_lt (bytes : List Nat) :
    ∀ crc, crc < 2 ^ 32 → bytes.foldl updateCrc crc < 2 ^ 32 := by
  induction bytes with
  | nil => intro crc h; simpa using h
  | cons b bs ih => intro crc h; exact ih _ (updateCrc_lt _ _)

lemma foldl_updateCrc_eq (bytes : List Nat) (hb : ∀ x ∈ bytes, x < 256) :
    ∀ crc, crc < 2 ^ 32 → bytes.foldl updateCrc crc = bytes.foldl feedByteBits crc := by
  induction bytes with
  | nil => intro crc h; rfl
  | cons b bs ih =>
    intro crc h
    simp only [List.foldl]
    rw [← updateCrc_eq_feedByteBits _ _ h (hb b (by simp))]
    exact ih (fun x hx => hb x (by simp [hx])) _ (updateCrc_lt _ _)

lemma feedLength_eq_foldl (len : Nat) : ∀ crc, crc < 2 ^ 32 →
    feedLength crc len = (lengthBytesLE len).foldl feedByteBits crc := by
  induction len using Nat.strong_induction_on with
  | _ len ih =>
    intro crc hc
    by_cases h : len = 0
    · subst h
      rw [feedLength_zero, lengthBytesLE_zero]
      rfl
    · rw [feedLength_pos _ _ h, lengthBytesLE_pos _ h,
        ih (len / 256) (Nat.div_lt_self (Nat.pos_of_ne_zero h) (by decide)) _
          (updateCrc_lt _ _),
        updateCrc_eq_feedByteBits _ _ hc (Nat.mod_lt _ (by norm_num))]
      rfl

lemma strBytes_lt (s : String) : ∀ x ∈ strBytes s, x < 256 := by
  intro x hx
  simp only [strBytes, List.mem_map] at hx
  obtain ⟨u, _, rfl⟩ := hx
  exact u.toNat_lt

theorem posixCksum_correct :
    (∀ s : String, posixCksum s = cksumReference s) ∧
    posixCksum "" = 4294967295 ∧ posixCksum "abc" = 1219131554 ∧
    posixCksum "myapp" = 3057370603 := by
  refine ⟨fun s => ?_, ?_, ?_, ?_⟩
  · show feedLength ((strBytes s).foldl updateCrc 0) (strBytes s).length ^^^ 0xffffffff
      = cksumBitwise (strBytes s)
    unfold cksumBitwise
    rw [foldl_updateCrc_eq _ (strBytes_lt s) 0 (by norm_num),
      feedLength_eq_foldl _ _ (by
        rw [← foldl_updateCrc_eq _ (strBytes_lt s) 0 (by norm_num)]
        exact foldl_updateCrc_lt _ 0 (by norm_num))]
  · show feedLength ((strBytes "").foldl updateCrc 0) (strBytes "").length ^^^ 0xffffffff = _
    rw [show (strBytes "").length = 0 from rfl, feedLength_zero]
    decide
  · show feedLength ((strBytes "abc").foldl updateCrc 0) (strBytes "abc").length ^^^ 0xffffffff = _
    rw [show (strBytes "abc").length = 3 from rfl, feedLength_small _ 3 (by decide) (by decide)]
    decide
  · show feedLength ((strBytes "myapp").foldl updateCrc 0) (strBytes "myapp").length ^^^ 0xffffffff = _
    rw [show (strBytes "myapp").length = 5 from rfl, feedLength_small _ 5 (by decide) (by decide)]
    decide


/-! ### C2, C8, C10: the tunnel-state transition function -/

lemma isPrefixOf_append_self (l ts : List Char) : List.isPrefixOf l (l ++ ts) = true := by
  induction l with
  | nil => simp
  | cons c cs ih => simp [List.isPrefixOf_cons₂, ih]

lemma startsWith_head_ne (a b : Char) (as bs : List Char) (h : ¬ a = b) :
    strStartsWith ⟨b :: bs⟩ ⟨a :: as⟩ = false := by
  show List.isPrefixOf (a :: as) (b :: bs) = false
  rw [List.isPrefixOf_cons₂]
  simp [h]

lemma startsWith_append_self (p ts : List Char) :
    strStartsWith ⟨p ++ ts⟩ ⟨p⟩ = true := by
  show List.isPrefixOf p (p ++ ts) = true
  exact isPrefixOf_append_self p ts

lemma replaceFirstAux_left (c : Char) (cs ts : List Char) :
    replaceFirstAux (c :: cs) ((c :: cs) ++ ts) = ts := by
  rw [List.cons_append, replaceFirstAux]
  rw [← List.cons_append, if_pos (by rw [isPrefixOf_append_self])]
  exact List.drop_left _ _

lemma mk_ne_of_head_ne (a b : Char) (as bs : List Char) (h : ¬ a = b) :
    (⟨a :: as⟩ : String) ≠ ⟨b :: bs⟩ := by
  intro he
  have hd : a :: as = b :: bs := congrArg String.data he
  simp only [List.cons.injEq] at hd
  exact h hd.1

/-! ### C2 -/

theorem tunnel_active_counterexample :
    strStartsWith "pgrok tunnel active:https://x.example.com" "pgrok tunnel active:" = true ∧
    (parseTunnelMessage "pgrok tunnel active:https://x.example.com" initialTunnelState).url
      ≠ some "https://x.example.com" ∧
    (parseTunnelMessage "pgrok tunnel active:https://x.example.com" initialTunnelState).url
      = some "pgrok tunnel active:https://x.example.com" := by
  refine ⟨by decide, by decide, by decide⟩

theorem tunnel_active_amended (s : TunnelState) (rest : List Char) :
    (parseTunnelMessage ⟨"pgrok tunnel active: ".data ++ rest⟩ s).status = .online ∧
    (parseTunnelMessage ⟨"pgrok tunnel active: ".data ++ rest⟩ s).url
      = some (jsTrim ⟨("pgrok tunnel active: ".data ++ rest).drop 20⟩) ∧
    (parseTunnelMessage "pgrok tunnel active: https://x.example.com" initialTunnelState).status
      = .online ∧
    (parseTunnelMessage "pgrok tunnel active: https://x.example.com" initialTunnelState).url
      = some "https://x.example.com" := by
  have g1 : strStartsWith ⟨"pgrok tunnel active: ".data ++ rest⟩
      "Provisioning TLS certificate" = false :=
    startsWith_head_ne 'P' 'p' _ _ (by decide)
  have g2 : (⟨"pgrok tunnel active: ".data ++ rest⟩ : String) ≠ "TLS certificate ready." :=
    mk_ne_of_head_ne 'p' 'T' _ _ (by decide)
  have g3 : strStartsWith ⟨"pgrok tunnel active: ".data ++ rest⟩
      "Warning: TLS certificate not yet ready" = false :=
    startsWith_head_ne 'W' 'p' _ _ (by decide)
  have g4 : strStartsWith ⟨"pgrok tunnel active: ".data ++ rest⟩
      "pgrok tunnel active:" = true := by
    have := startsWith_append_self "pgrok tunnel active:".data (' ' :: rest)
    simpa using this
  have hurl : jsReplaceFirst ⟨"pgrok tunnel active: ".data ++ rest⟩
      "pgrok tunnel active: " = ⟨rest⟩ := by
    show (⟨replaceFirstAux "pgrok tunnel active: ".data
      ("pgrok tunnel active: ".data ++ rest)⟩ : String) = ⟨rest⟩
    rw [show "pgrok tunnel active: ".data
        = 'p' :: "grok tunnel active: ".data from rfl]
    rw [replaceFirstAux_left]
  have hdrop : ("pgrok tunnel active: ".data ++ rest).drop 20 = ' ' :: rest := by
    rfl
  have htrim : jsTrim ⟨' ' :: rest⟩ = jsTrim ⟨rest⟩ := by
    show (⟨((' ' :: rest).dropWhile Char.isWhitespace).reverse.dropWhile
      Char.isWhitespace |>.reverse⟩ : String) = _
    rw [List.dropWhile_cons]
    simp only [Char.isWhitespace, decide_True, if_true]
    rfl
  unfold parseTunnelMessage
  rw [g1, g3, g4]
  simp only [Bool.false_eq_true, if_false, if_true, if_neg g2]
  refine ⟨?_, ?_, ?_, ?_⟩ <;>
    first
      | trivial
      | (simp only [hurl, hdrop, htrim])

/-! ### C8 -/

theorem parse_unrecognized_identity (line : String) (s : TunnelState)
    (h1 : strStartsWith line "Provisioning TLS certificate" = false)
    (h2 : line ≠ "TLS certificate ready.")
    (h3 : strStartsWith line "Warning: TLS certificate not yet ready" = false)
    (h4 : strStartsWith line "pgrok tunnel active:" = false)
    (h5 : strStartsWith line "Error:" = false) :
    parseTunnelMessage line s = s := by
  unfold parseTunnelMessage
  rw [h1, h3, h4, h5]
  simp [h2]

theorem parse_unrecognized_identity_witness :
    parseTunnelMessage "Connection established." initialTunnelState = initialTunnelState :=
  parse_unrecognized_identity "Connection established." initialTunnelState
    (by decide) (by decide) (by decide) (by decide) (by decide)

/-! ### C10 -/

theorem parse_error_frame (s : TunnelState) (rest : List Char) :
    (parseTunnelMessage ⟨"Error:".data ++ rest⟩ s).status = .error ∧
    (parseTunnelMessage ⟨"Error:".data ++ rest⟩ s).error = some ⟨"Error:".data ++ rest⟩ ∧
    (parseTunnelMessage ⟨"Error:".data ++ rest⟩ s).url = s.url ∧
    (parseTunnelMessage ⟨"Error:".data ++ rest⟩ s).certStatus = s.certStatus := by
  have g1 : strStartsWith ⟨"Error:".data ++ rest⟩ "Provisioning TLS certificate" = false :=
    startsWith_head_ne 'P' 'E' _ _ (by decide)
  have g2 : (⟨"Error:".data ++ rest⟩ : String) ≠ "TLS certificate ready." :=
    mk_ne_of_head_ne 'E' 'T' _ _ (by decide)
  have g3 : strStartsWith ⟨"Error:".data ++ rest⟩
      "Warning: TLS certificate not yet ready" = false :=
    startsWith_head_ne 'W' 'E' _ _ (by decide)
  have g4 : strStartsWith ⟨"Error:".data ++ rest⟩ "pgrok tunnel active:" = false :=
    startsWith_head_ne 'p' 'E' _ _ (by decide)
  have g5 : strStartsWith ⟨"Error:".data ++ rest⟩ "Error:" = true :=
    startsWith_append_self "Error:".data rest
  unfold parseTunnelMessage
  rw [g1, g3, g4, g5]
  simp only [Bool.false_eq_true, if_false, if_true, if_neg g2]
  exact ⟨trivial, trivial, trivial, trivial⟩


/-! ### C7: the in-flight counter never goes negative -/

lemma inFlight_nonneg_step (st : StatsState) (op : StatsOp) (h : 0 ≤ st.inFlight) :
    0 ≤ (applyStatsOp st op).inFlight := by
  cases op with
  | record now ms => exact h
  | start => simp only [applyStatsOp, requestStart]; omega
  | complete => simp only [applyStatsOp, requestDone]; exact le_max_left 0 _

lemma inFlight_nonneg_fold (ops : List StatsOp) :
    ∀ st : StatsState, 0 ≤ st.inFlight → 0 ≤ (applyStatsOps st ops).inFlight := by
  induction ops with
  | nil => intro st h; exact h
  | cons op ops ih => intro st h; exact ih _ (inFlight_nonneg_step st op h)

theorem open_connections_nonneg (ops : List StatsOp) (now : Int) :
    0 ≤ (statsGet now (applyStatsOps initialStatsState ops)).1.openConnections ∧
    (statsGet now (applyStatsOps initialStatsState ops)).1.openConnections
      = (applyStatsOps initialStatsState ops).inFlight := by
  exact ⟨inFlight_nonneg_fold ops initialStatsState le_rfl, rfl⟩

/-! ### C5: WebSocket queue-until-open ordering -/

lemma wsRun_down_notReady {α : Type} (ms : List α) :
    ∀ q s : List α, List.foldl wsStep ⟨false, q, s⟩ (ms.map WsEvent.down)
      = ⟨false, q ++ ms, s⟩ := by
  induction ms with
  | nil => intro q s; simp
  | cons m ms ih =>
    intro q s
    simp only [List.map_cons, List.foldl_cons, wsStep, Bool.false_eq_true, if_false]
    rw [ih (q ++ [m]) s]
    simp

lemma wsRun_down_ready {α : Type} (ms : List α) :
    ∀ q s : List α, List.foldl wsStep ⟨true, q, s⟩ (ms.map WsEvent.down)
      = ⟨true, q, s ++ ms⟩ := by
  induction ms with
  | nil => intro q s; simp
  | cons m ms ih =>
    intro q s
    simp only [List.map_cons, List.foldl_cons, wsStep, eq_self_iff_true, if_true]
    rw [ih q (s ++ [m])]
    simp

theorem ws_fifo_order (α : Type) (pre post : List α) :
    (wsRun (pre.map WsEvent.down)).sentUp = [] ∧
    (wsRun (pre.map WsEvent.down)).queue = pre ∧
    (wsRun (pre.map WsEvent.down ++ [WsEvent.upOpen] ++ post.map WsEvent.down)).sentUp
      = pre ++ post := by
  refine ⟨?_, ?_, ?_⟩
  · rw [wsRun, wsInit, wsRun_down_notReady]
  · rw [wsRun, wsInit, wsRun_down_notReady]; simp
  · rw [wsRun, wsInit, List.foldl_append, List.foldl_append,
      wsRun_down_notReady, List.foldl_cons]
    simp only [wsStep, List.foldl_nil]
    rw [wsRun_down_ready]
    simp


/-! ### C4: 502 on forwarding failure, exactly one record per exchange -/

theorem fetch_502_single_record (req : ReqModel) (outcome : FetchOutcome)
    (start endT : ℚ) (ts : Int) :
    ((handleFetch req outcome start endT ts).2.length = 1) ∧
    (outcome = .fail →
      (handleFetch req outcome start endT ts).1.status = 502 ∧
      hGet (handleFetch req outcome start endT ts).1.headers "content-type"
        = some "text/plain" ∧
      (handleFetch req outcome start endT ts).1.body
        = "502 Bad Gateway — local service not running\n" ∧
      (handleFetch req outcome start endT ts).2
        = [⟨ts, req.method, req.path, 502, "Bad Gateway", endT - start⟩]) ∧
    (∀ status statusText respHeaders body,
      outcome = .ok status statusText respHeaders body →
      (handleFetch req outcome start endT ts).1.status = status ∧
      (handleFetch req outcome start endT ts).2
        = [⟨ts, req.method, req.path, status, statusText, endT - start⟩]) := by
  cases outcome with
  | ok status statusText respHeaders body =>
    refine ⟨rfl, ?_, ?_⟩
    · intro h
      cases h
    · intro s' t' h' b' h
      cases h
      exact ⟨rfl, rfl⟩
  | fail =>
    refine ⟨rfl, ?_, ?_⟩
    · intro _
      refine ⟨rfl, ?_, rfl, rfl⟩
      show hGet [("content-type", "text/plain")] "content-type" = some "text/plain"
      decide
    · intro s' t' h' b' h
      cases h


/-! ### C3: hop-by-hop header stripping -/

/-- The header names the proxy itself sets on the forwarded request after
stripping. -/
def PROXY_SET : List String :=
  ["host", "x-forwarded-for", "x-forwarded-proto", "x-forwarded-host", "x-forwarded-port"]

lemma hGet_hDelete_self (h : HeadersM) (n m : String) (hnm : lowerStr m = lowerStr n) :
    hGet (hDelete h n) m = none := by
  induction h with
  | nil => rfl
  | cons p ps ih =>
    simp only [hDelete, List.filter] at ih ⊢
    cases hb : (lowerStr p.1 == lowerStr n) with
    | true => simpa [hb] using ih
    | false =>
      simp only [hb, Bool.not_false, hGet, List.find?]
      have hm : (lowerStr p.1 == lowerStr m) = false := by
        rw [hnm]
        exact hb
      rw [hm]
      simpa [hGet] using ih

lemma hGet_hDelete_none (h : HeadersM) (n m : String) (h0 : hGet h m = none) :
    hGet (hDelete h n) m = none := by
  induction h with
  | nil => rfl
  | cons p ps ih =>
    simp only [hGet, List.find?] at h0
    cases hb : (lowerStr p.1 == lowerStr m) with
    | true => rw [hb] at h0; simp at h0
    | false =>
      rw [hb] at h0
      simp only [hDelete, List.filter]
      cases hd : (lowerStr p.1 == lowerStr n) with
      | true =>
        simpa [hd, hDelete] using ih (by simpa [hGet] using h0)
      | false =>
        simp only [hd, Bool.not_false, hGet, List.find?, hb]
        simpa [hGet, hDelete] using ih (by simpa [hGet] using h0)

lemma hGet_foldl_hDelete_none (names : List String) (h : HeadersM) (m : String)
    (h0 : hGet h m = none) :
    hGet (names.foldl hDelete h) m = none := by
  induction names generalizing h with
  | nil => exact h0
  | cons n ns ih => exact ih _ (hGet_hDelete_none h n m h0)

lemma hGet_foldl_hDelete_mem (names : List String) (h : HeadersM) (m : String)
    (hm : ∃ n ∈ names, lowerStr m = lowerStr n) :
    hGet (names.foldl hDelete h) m = none := by
  induction names generalizing h with
  | nil => obtain ⟨n, hn, _⟩ := hm; cases hn
  | cons n ns ih =>
    obtain ⟨n', hn', he⟩ := hm
    rcases List.mem_cons.mp hn' with rfl | hmem
    · exact hGet_foldl_hDelete_none ns _ m (hGet_hDelete_self h n' m he)
    · exact ih _ ⟨n', hmem, he⟩

lemma hGet_append_none (h1 h2 : HeadersM) (m : String)
    (ha : hGet h1 m = none) (hb : hGet h2 m = none) :
    hGet (h1 ++ h2) m = none := by
  simp only [hGet] at ha hb ⊢
  rw [List.find?_append]
  cases hf : List.find? (fun p => lowerStr p.1 == lowerStr m) h1 with
  | none =>
    cases hg : List.find? (fun p => lowerStr p.1 == lowerStr m) h2 with
    | none => simp [Option.or]
    | some v => rw [hg] at hb; simp at hb
  | some v => rw [hf] at ha; simp at ha

lemma hGet_hSet_none (h : HeadersM) (n v m : String)
    (hne : (lowerStr (lowerStr n) == lowerStr m) = false) (h0 : hGet h m = none) :
    hGet (hSet h n v) m = none := by
  unfold hSet
  refine hGet_append_none _ _ _ (hGet_hDelete_none h n m h0) ?_
  simp [hGet, List.find?, hne]

lemma stripHop_none_of_memHop (h : HeadersM) (m : String)
    (hm : ∃ n ∈ HOP_BY_HOP, lowerStr m = lowerStr n) :
    hGet (stripHopByHop h) m = none := by
  unfold stripHopByHop
  exact hGet_foldl_hDelete_mem _ _ _ hm

lemma stripHop_none_of_token (h : HeadersM) (tok : String) (htok : tok ∈ connTokens h) :
    hGet (stripHopByHop h) (jsTrim tok) = none := by
  unfold stripHopByHop
  apply hGet_foldl_hDelete_none
  rw [show (connTokens h).foldl (fun acc name => hDelete acc (jsTrim name)) h
      = ((connTokens h).map jsTrim).foldl hDelete h from (List.foldl_map _ _ _ _).symm]
  exact hGet_foldl_hDelete_mem _ _ _ ⟨jsTrim tok, List.mem_map_of_mem _ htok, rfl⟩

lemma buildForward_none (inbound : HeadersM) (tp : Nat) (m : String)
    (h0 : hGet (stripHopByHop inbound) m = none)
    (h1 : lowerStr m ≠ "host")
    (h2 : lowerStr m ≠ "x-forwarded-for")
    (h3 : lowerStr m ≠ "x-forwarded-proto")
    (h4 : lowerStr m ≠ "x-forwarded-host")
    (h5 : lowerStr m ≠ "x-forwarded-port") :
    hGet (buildForwardHeaders inbound tp) m = none := by
  have lift : ∀ lit : String, lowerStr (lowerStr lit) = lowerStr lit → lowerStr m ≠ lowerStr lit →
      (lowerStr (lowerStr lit) == lowerStr m) = false := by
    intro lit hid hne
    rw [hid]
    exact beq_false_of_ne fun he => hne he.symm
  simp only [buildForwardHeaders]
  apply hGet_hDelete_none
  apply hGet_hSet_none _ _ _ _ (lift "x-forwarded-port" (by decide) (by simpa using h5))
  apply hGet_hSet_none _ _ _ _ (lift "x-forwarded-host" (by decide) (by simpa using h4))
  apply hGet_hSet_none _ _ _ _ (lift "x-forwarded-proto" (by decide) (by simpa using h3))
  apply hGet_hSet_none _ _ _ _ (lift "x-forwarded-for" (by decide) (by simpa using h2))
  apply hGet_hSet_none _ _ _ _ (lift "host" (by decide) (by simpa using h1))
  exact h0

theorem hop_by_hop_counterexample :
    jsTrim "host" ∈ connTokens [("connection", "host"), ("host", "example.com")] ∧
    hGet (buildForwardHeaders [("connection", "host"), ("host", "example.com")] 3000)
      (jsTrim "host") = some "localhost:3000" := by
  refine ⟨by decide, by decide⟩

theorem hop_by_hop_stripped_amended (inbound : HeadersM) (targetPort : Nat) (resp : HeadersM) :
    (∀ name ∈ HOP_BY_HOP, hGet (buildForwardHeaders inbound targetPort) name = none) ∧
    (∀ tok ∈ connTokens inbound, lowerStr (jsTrim tok) ∉ PROXY_SET →
      hGet (buildForwardHeaders inbound targetPort) (jsTrim tok) = none) ∧
    (∀ name ∈ HOP_BY_HOP, hGet (buildResponseHeaders resp) name = none) := by
  have aux : ∀ n ∈ HOP_BY_HOP, lowerStr n = n ∧ n ∉ PROXY_SET := by decide
  refine ⟨?_, ?_, ?_⟩
  · intro name hname
    obtain ⟨hlow, hnot⟩ := aux name hname
    have hps : ∀ p ∈ PROXY_SET, lowerStr name ≠ p := by
      intro p hp he
      rw [hlow] at he
      exact hnot (he ▸ hp)
    refine buildForward_none _ _ _ (stripHop_none_of_memHop _ _ ⟨name, hname, rfl⟩)
      (hps _ (by decide)) (hps _ (by decide)) (hps _ (by decide))
      (hps _ (by decide)) (hps _ (by decide))
  · intro tok htok hnot
    have hps : ∀ p ∈ PROXY_SET, lowerStr (jsTrim tok) ≠ p := by
      intro p hp he
      exact hnot (he ▸ hp)
    refine buildForward_none _ _ _ (stripHop_none_of_token _ _ htok)
      (hps _ (by decide)) (hps _ (by decide)) (hps _ (by decide))
      (hps _ (by decide)) (hps _ (by decide))
  · intro name hname
    unfold buildResponseHeaders
    apply hGet_hDelete_none
    apply hGet_hDelete_none
    exact stripHop_none_of_memHop _ _ ⟨name, hname, rfl⟩


/-! ### C9: config loading -/

theorem loadConfig_counterexample :
    getVar (parseVars "PGROK_HOST=\nPGROK_DOMAIN=example.com") "PGROK_HOST"
      = some "" ∧
    getVar (parseVars "PGROK_HOST=\nPGROK_DOMAIN=example.com") "PGROK_DOMAIN"
      = some "example.com" ∧
    (loadConfig "PGROK_HOST=\nPGROK_DOMAIN=example.com" "/home/u" (fun _ => true)).toOption
      = none := by
  refine ⟨by decide, by decide, by decide⟩

theorem loadConfig_amended (content home : String) (fileExists : String → Bool) :
    ((loadConfig content home fileExists).toOption.isSome = true ↔
      ((∃ hv, getVar (parseVars content) "PGROK_HOST" = some hv ∧ hv ≠ "") ∧
       (∃ dv, getVar (parseVars content) "PGROK_DOMAIN" = some dv ∧ dv ≠ ""))) ∧
    (∀ cfg k, loadConfig content home fileExists = .ok cfg → cfg.sshKey = some k →
      fileExists k = true ∧ k ≠ "" ∧
      ∃ v, getVar (parseVars content) "PGROK_SSH_KEY" = some v ∧ k = tildeExpand v home) := by
  constructor
  · simp only [loadConfig]
    cases hH : getVar (parseVars content) "PGROK_HOST" with
    | none => simp [hH, Except.toOption]
    | some hv =>
      by_cases hhe : hv = ""
      · subst hhe
        simp [hH, Except.toOption]
      · simp only [hH, if_neg hhe]
        cases hD : getVar (parseVars content) "PGROK_DOMAIN" with
        | none => simp [hhe, Except.toOption]
        | some dv =>
          by_cases hde : dv = ""
          · subst hde
            simp [hhe, Except.toOption]
          · simp [hhe, hde, if_neg hde, Except.toOption]
  · intro cfg k hok hkey
    simp only [loadConfig] at hok
    cases hH : getVar (parseVars content) "PGROK_HOST" with
    | none => simp only [hH] at hok; cases hok
    | some hv =>
      simp only [hH] at hok
      by_cases hhe : hv = ""
      · simp only [if_pos hhe] at hok; cases hok
      · simp only [if_neg hhe] at hok
        cases hD : getVar (parseVars content) "PGROK_DOMAIN" with
        | none => simp only [hD] at hok; cases hok
        | some dv =>
          simp only [hD] at hok
          by_cases hde : dv = ""
          · simp only [if_pos hde] at hok; cases hok
          · simp only [if_neg hde, Except.ok.injEq] at hok
            subst hok
            cases hK : getVar (parseVars content) "PGROK_SSH_KEY" with
            | none =>
              simp only [hK] at hkey
              cases hkey
            | some v =>
              simp only [hK] at hkey
              by_cases hcond : (tildeExpand v home ≠ "" && fileExists (tildeExpand v home)) = true
              · rw [if_pos (by simpa using hcond)] at hkey
                cases hkey
                simp only [Bool.and_eq_true, ne_eq, decide_eq_true_eq] at hcond
                exact ⟨hcond.2, hcond.1, v, rfl, rfl⟩
              · rw [if_neg (by simpa using hcond)] at hkey
                cases hkey


/-! ### C6 -/

lemma round2_int (n : ℤ) : round2 (n : ℚ) = n := by
  unfold round2 jsRound
  have hf : ⌊(n : ℚ) * 100 + 1 / 2⌋ = 100 * n := by
    rw [Int.floor_eq_iff]
    constructor
    · push_cast
      linarith
    · push_cast
      linarith
  rw [hf]
  push_cast
  field_simp

lemma map_sortByMs (ds : List TimingEntry) :
    (sortByMs ds).map TimingEntry.ms
      = (ds.map TimingEntry.ms).mergeSort fun a b => decide (a ≤ b) := by
  have trans1 : ∀ a b c : TimingEntry,
      decide (a.ms ≤ b.ms) = true → decide (b.ms ≤ c.ms) = true →
      decide (a.ms ≤ c.ms) = true := by
    intro a b c hab hbc
    simp only [decide_eq_true_eq] at hab hbc ⊢
    exact le_trans hab hbc
  have total1 : ∀ a b : TimingEntry,
      (decide (a.ms ≤ b.ms) || decide (b.ms ≤ a.ms)) = true := by
    intro a b
    simpa using le_total a.ms b.ms
  have trans2 : ∀ a b c : ℚ,
      decide (a ≤ b) = true → decide (b ≤ c) = true → decide (a ≤ c) = true := by
    intro a b c hab hbc
    simp only [decide_eq_true_eq] at hab hbc ⊢
    exact le_trans hab hbc
  have total2 : ∀ a b : ℚ, (decide (a ≤ b) || decide (b ≤ a)) = true := by
    intro a b
    simpa using le_total a b
  apply List.eq_of_perm_of_sorted (r := fun a b : ℚ => a ≤ b)
  · exact ((List.mergeSort_perm ds _).map _).trans
      ((List.mergeSort_perm (ds.map TimingEntry.ms) _).symm)
  · have hs := List.sorted_mergeSort trans1 total1 ds
    exact List.Pairwise.map _ (fun {a b} h => by simpa using h) hs
  · have hs := List.sorted_mergeSort trans2 total2 (ds.map TimingEntry.ms)
    exact hs.imp fun {a b} h => by simpa using h

lemma getD_map_ms (l : List TimingEntry) (i : Nat) (hi : i < l.length) :
    (l.map TimingEntry.ms).getD i 0 = (l.getD i default).ms := by
  induction l generalizing i with
  | nil => cases hi
  | cons a as ih =>
    cases i with
    | zero => rfl
    | succ j => exact ih j (by simpa using hi)

lemma if_pos_div (k : Nat) (c : ℚ) : (if k > 0 then (k : ℚ) / c else 0) = (k : ℚ) / c := by
  by_cases h : k > 0
  · rw [if_pos h]
  · simp only [not_lt, Nat.le_zero] at h
    subst h
    simp

/-- C6: the snapshot equals the spec's description (prune, rates over the
retained window, sorted-index percentiles, two-decimal rounding); plus the
spec's worked example. -/
theorem statsGet_matches_spec :
    (∀ (now : Int) (st : StatsState), (statsGet now st).1 = snapshotSpec now st) ∧
    ((statsGet 0 ⟨[⟨0, 10⟩, ⟨0, 20⟩, ⟨0, 30⟩, ⟨0, 40⟩, ⟨0, 50⟩], 0, 5⟩).1.p50Ms = 30 ∧
     (statsGet 0 ⟨[⟨0, 10⟩, ⟨0, 20⟩, ⟨0, 30⟩, ⟨0, 40⟩, ⟨0, 50⟩], 0, 5⟩).1.p90Ms = 50) := by
  have key : ∀ a b : ConnectionStats, a.totalRequests = b.totalRequests →
      a.openConnections = b.openConnections → a.rate1m = b.rate1m →
      a.rate5m = b.rate5m → a.p50Ms = b.p50Ms → a.p90Ms = b.p90Ms → a = b := by
    intro a b h1 h2 h3 h4 h5 h6
    cases a
    cases b
    cases h1
    cases h2
    cases h3
    cases h4
    cases h5
    cases h6
    rfl
  constructor
  · intro now st
    have hlen1 : (sortByMs (pruneEntries now st.durations)).length
        = (pruneEntries now st.durations).length :=
      (List.mergeSort_perm _ _).length_eq
    have hlen2 : (((pruneEntries now st.durations).map TimingEntry.ms).mergeSort
        (fun a b => decide (a ≤ b))).length = (pruneEntries now st.durations).length := by
      rw [(List.mergeSort_perm _ _).length_eq, List.length_map]
    apply key
    · rfl
    · rfl
    · show (if (List.filter (fun d => decide (now - 60000 < d.ts))
            (pruneEntries now st.durations)).length > 0
          then ((List.filter (fun d => decide (now - 60000 < d.ts))
            (pruneEntries now st.durations)).length : ℚ) / 60 else 0)
        = ((List.filter (fun d => decide (now - 60000 < d.ts))
            (pruneEntries now st.durations)).length : ℚ) / 60
      exact if_pos_div _ 60
    · show (if (pruneEntries now st.durations).length > 0
          then ((pruneEntries now st.durations).length : ℚ) / 300 else 0)
        = ((((pruneEntries now st.durations).map TimingEntry.ms).mergeSort
            (fun a b => decide (a ≤ b))).length : ℚ) / 300
      rw [hlen2]
      exact if_pos_div _ 300
    · show round2 (if (sortByMs (pruneEntries now st.durations)).length > 0
          then ((sortByMs (pruneEntries now st.durations)).getD
            ((sortByMs (pruneEntries now st.durations)).length * 5 / 10) default).ms else 0)
        = round2 (if (((pruneEntries now st.durations).map TimingEntry.ms).mergeSort
              (fun a b => decide (a ≤ b))).length = 0 then 0
            else (((pruneEntries now st.durations).map TimingEntry.ms).mergeSort
              (fun a b => decide (a ≤ b))).getD
              ((((pruneEntries now st.durations).map TimingEntry.ms).mergeSort
                (fun a b => decide (a ≤ b))).length * 5 / 10) 0)
      congr 1
      rw [hlen1, hlen2]
      by_cases h : (pruneEntries now st.durations).length = 0
      · rw [if_neg (by omega), if_pos h]
      · have hidx : (pruneEntries now st.durations).length * 5 / 10
            < (pruneEntries now st.durations).length := Nat.div_lt_of_lt_mul (by omega)
        rw [if_pos (by omega), if_neg h, ← map_sortByMs,
          getD_map_ms _ _ (by rw [hlen1]; exact hidx)]
    · show round2 (if (sortByMs (pruneEntries now st.durations)).length > 0
          then ((sortByMs (pruneEntries now st.durations)).getD
            ((sortByMs (pruneEntries now st.durations)).length * 9 / 10) default).ms else 0)
        = round2 (if (((pruneEntries now st.durations).map TimingEntry.ms).mergeSort
              (fun a b => decide (a ≤ b))).length = 0 then 0
            else (((pruneEntries now st.durations).map TimingEntry.ms).mergeSort
              (fun a b => decide (a ≤ b))).getD
              ((((pruneEntries now st.durations).map TimingEntry.ms).mergeSort
                (fun a b => decide (a ≤ b))).length * 9 / 10) 0)
      congr 1
      rw [hlen1, hlen2]
      by_cases h : (pruneEntries now st.durations).length = 0
      · rw [if_neg (by omega), if_pos h]
      · have hidx : (pruneEntries now st.durations).length * 9 / 10
            < (pruneEntries now st.durations).length := Nat.div_lt_of_lt_mul (by omega)
        rw [if_pos (by omega), if_neg h, ← map_sortByMs,
          getD_map_ms _ _ (by rw [hlen1]; exact hidx)]
  · have hp : pruneEntries 0 [⟨0, 10⟩, ⟨0, 20⟩, ⟨0, 30⟩, ⟨0, 40⟩, ⟨0, 50⟩]
        = ([⟨0, 10⟩, ⟨0, 20⟩, ⟨0, 30⟩, ⟨0, 40⟩, ⟨0, 50⟩] : List TimingEntry) := by decide
    have hs : ([⟨0, 10⟩, ⟨0, 20⟩, ⟨0, 30⟩, ⟨0, 40⟩, ⟨0, 50⟩] : List TimingEntry).mergeSort
        (fun a b => decide (a.ms ≤ b.ms)) = [⟨0, 10⟩, ⟨0, 20⟩, ⟨0, 30⟩, ⟨0, 40⟩, ⟨0, 50⟩] :=
      List.mergeSort_of_sorted (by decide)
    constructor
    · show round2 _ = 30
      simp only [statsGet, sortByMs, hp, hs]
      norm_num [List.getD]
      have := round2_int 30
      norm_num at this
      exact this
    · show round2 _ = 50
      simp only [statsGet, sortByMs, hp, hs]
      norm_num [List.getD]
      have := round2_int 50
      norm_num at this
      exact this


end Pgrok
